import Mathlib

/-!
Verification of the 256-point radix-2 DIT FFT engine (`src/fft.h`, `src/fft.cpp`).

The C++ design works on `ap_fixed<32,16>` values (Q16.16: a signed 32-bit
two's-complement raw integer scaled by 2^-16).  We embed every Q16.16 value by
its raw signed integer payload (an `Int` in `[-2^31, 2^31)`), streams by lists
of transport words, and the working buffers by functions `Nat → Int`.  All
arithmetic is done on the raw payloads, with 32-bit wrap made explicit.
-/

namespace FFT

/-- Transform size, `FFT_SIZE` in `fft.h`. -/
def FFT_SIZE : ℕ := 256

/-- Stage count, `LOG2_FFT_SIZE` in `fft.h`. -/
def LOG2_FFT_SIZE : ℕ := 8

/-- Normalisation of an arbitrary integer to the signed 32-bit two's-complement
range `[-2^31, 2^31)`: the value a 32-bit register holds after wrap-around.
`ap_fixed<32,16>` uses the `AP_WRAP` overflow mode, which is exactly this. -/
def wrap32 (x : ℤ) : ℤ := (x + 2 ^ 31) % 2 ^ 32 - 2 ^ 31

/-- Addition of two `fixed_t` raw payloads: 32-bit two's-complement wrap. -/
def fadd (a b : ℤ) : ℤ := wrap32 (a + b)

/-- Subtraction of two `fixed_t` raw payloads: 32-bit two's-complement wrap. -/
def fsub (a b : ℤ) : ℤ := wrap32 (a - b)

/-- The expression `(fixed_t)(a * b)` on `ap_fixed<32,16>` operands: the full
product is an `ap_fixed<64,32>` whose raw payload is `a * b` with 32 fractional
bits; the cast back to 16 fractional bits quantises with `AP_TRN` (truncation
toward minus infinity, i.e. an arithmetic shift right by 16 = floor division
by 2^16) and then wraps the integer bits (`AP_WRAP`). -/
def fmul (a b : ℤ) : ℤ := wrap32 (Int.fdiv (a * b) (2 ^ 16))

/-- Raw 32-bit pattern (as an unsigned value `< 2^32`) of a signed payload:
what `fixed_t::range()` yields. -/
def toRaw (x : ℤ) : ℕ := ((x % 2 ^ 32).toNat)

/-- Signed payload of a raw 32-bit pattern: reinterpretation of an
`ap_uint<32>` bit pattern as `ap_fixed<32,16>` via `range()` assignment. -/
def toSigned (n : ℕ) : ℤ := if n < 2 ^ 31 then (n : ℤ) else (n : ℤ) - 2 ^ 32

/-- One AXI-Stream transport word, `axis_t = ap_axiu<64,0,0,0>`: 64-bit data
payload, 8-bit keep and strb sidebands, 1-bit last flag. -/
structure Axis where
  data : ℕ
  keep : ℕ
  strb : ℕ
  last : Bool
deriving DecidableEq, Repr

/-- `pack_data` from `fft.h`: the real payload's raw pattern goes to bits
[63:32] of the 64-bit word, the imaginary payload's raw pattern to bits
[31:0]. -/
def pack_data (r i : ℤ) : ℕ := toRaw r * 2 ^ 32 + toRaw i

/-- `unpack_data` from `fft.h`: bits [63:32] reinterpreted as the real
payload, bits [31:0] as the imaginary payload. -/
def unpack_data (p : ℕ) : ℤ × ℤ := (toSigned (p / 2 ^ 32 % 2 ^ 32), toSigned (p % 2 ^ 32))

/-- Assignment `rev[pos] = b` on an `ap_uint<8>` register: set or clear one
bit, every other bit unchanged. -/
def setBit8 (r pos : ℕ) (b : Bool) : ℕ :=
  if b then r ||| (1 <<< pos) else r &&& (255 ^^^ (1 <<< pos))

/-- `bit_reverse_idx` from `fft.cpp`: starting from `rev = 0`, bit `i` of the
input is written to bit `LOG2_FFT_SIZE - 1 - i` of `rev`. -/
def bit_reverse_idx (idx : ℕ) : ℕ :=
  (List.range LOG2_FFT_SIZE).foldl
    (fun rev i => setBit8 rev (LOG2_FFT_SIZE - 1 - i) (idx.testBit i)) 0

/-- The default transport word (never actually consulted on well-formed
inputs: the reader performs exactly 256 blocking reads). -/
def defaultAxis : Axis := ⟨0, 0, 0, false⟩

/-- One iteration of `READ_LOOP` in `read_input`: read the `i`-th stream word
and unpack it into the two buffers at index `i`. -/
def riStep (ws : List Axis) (bufs : (ℕ → ℤ) × (ℕ → ℤ)) (i : ℕ) : (ℕ → ℤ) × (ℕ → ℤ) :=
  (Function.update bufs.1 i (unpack_data (ws.getD i defaultAxis).data).1,
   Function.update bufs.2 i (unpack_data (ws.getD i defaultAxis).data).2)

/-- `read_input` from `fft.cpp`: 256 successive stream reads; each word is
unpacked into the real and imaginary buffers at index `i`.  The last flag of
the incoming words is not inspected.  The stream is modelled as a list whose
`i`-th element is the `i`-th word read. -/
def read_input (ws : List Axis) : (ℕ → ℤ) × (ℕ → ℤ) :=
  (List.range FFT_SIZE).foldl (riStep ws) (fun _ => 0, fun _ => 0)

/-- One iteration of `BIT_REV_LOOP` in `bit_reverse`: the input sample at `i`
is stored at index `bit_reverse_idx i` of the output buffers. -/
def brStep (inr ini : ℕ → ℤ) (outs : (ℕ → ℤ) × (ℕ → ℤ)) (i : ℕ) : (ℕ → ℤ) × (ℕ → ℤ) :=
  (Function.update outs.1 (bit_reverse_idx i) (inr i),
   Function.update outs.2 (bit_reverse_idx i) (ini i))

/-- `bit_reverse` from `fft.cpp`: the bit-reversal permuter.  The C output
arrays are uninitialised before the loop; the model starts them at zero
(every cell is overwritten, as proved below). -/
def bit_reverse (inr ini : ℕ → ℤ) : (ℕ → ℤ) × (ℕ → ℤ) :=
  (List.range FFT_SIZE).foldl (brStep inr ini) (fun _ => 0, fun _ => 0)

/-- The 128 decimal literals of the source table `TW_REAL` (values of
`cos(-2*pi*k/256)` written with 10 fractional digits), each scaled by `10^10`
so that the list entry is the exact integer numerator of the literal. -/
def TW_REAL_LITS : List ℤ := [
  10000000000, 9996988187, 9987954562, 9972904567,
  9951847267, 9924795346, 9891765100, 9852776424,
  9807852804, 9757021300, 9700312532, 9637760658,
  9569403357, 9495281806, 9415440652, 9329927988,
  9238795325, 9142097557, 9039892931, 8932243012,
  8819212643, 8700869911, 8577286100, 8448535652,
  8314696123, 8175848132, 8032075315, 7883464276,
  7730104534, 7572088465, 7409511254, 7242470830,
  7071067812, 6895405447, 6715589548, 6531728430,
  6343932842, 6152315906, 5956993045, 5758081914,
  5555702330, 5349976199, 5141027442, 4928981922,
  4713967368, 4496113297, 4275550934, 4052413140,
  3826834324, 3598950365, 3368898534, 3136817404,
  2902846773, 2667127575, 2429801799, 2191012402,
  1950903220, 1709618888, 1467304745, 1224106752,
  980171403, 735645636, 490676743, 245412285,
  0, -245412285, -490676743, -735645636,
  -980171403, -1224106752, -1467304745, -1709618888,
  -1950903220, -2191012402, -2429801799, -2667127575,
  -2902846773, -3136817404, -3368898534, -3598950365,
  -3826834324, -4052413140, -4275550934, -4496113297,
  -4713967368, -4928981922, -5141027442, -5349976199,
  -5555702330, -5758081914, -5956993045, -6152315906,
  -6343932842, -6531728430, -6715589548, -6895405447,
  -7071067812, -7242470830, -7409511254, -7572088465,
  -7730104534, -7883464276, -8032075315, -8175848132,
  -8314696123, -8448535652, -8577286100, -8700869911,
  -8819212643, -8932243012, -9039892931, -9142097557,
  -9238795325, -9329927988, -9415440652, -9495281806,
  -9569403357, -9637760658, -9700312532, -9757021300,
  -9807852804, -9852776424, -9891765100, -9924795346,
  -9951847267, -9972904567, -9987954562, -9996988187]

def TW_IMAG_LITS : List ℤ := [
  0, -245412285, -490676743, -735645636,
  -980171403, -1224106752, -1467304745, -1709618888,
  -1950903220, -2191012402, -2429801799, -2667127575,
  -2902846773, -3136817404, -3368898534, -3598950365,
  -3826834324, -4052413140, -4275550934, -4496113297,
  -4713967368, -4928981922, -5141027442, -5349976199,
  -5555702330, -5758081914, -5956993045, -6152315906,
  -6343932842, -6531728430, -6715589548, -6895405447,
  -7071067812, -7242470830, -7409511254, -7572088465,
  -7730104534, -7883464276, -8032075315, -8175848132,
  -8314696123, -8448535652, -8577286100, -8700869911,
  -8819212643, -8932243012, -9039892931, -9142097557,
  -9238795325, -9329927988, -9415440652, -9495281806,
  -9569403357, -9637760658, -9700312532, -9757021300,
  -9807852804, -9852776424, -9891765100, -9924795346,
  -9951847267, -9972904567, -9987954562, -9996988187,
  -10000000000, -9996988187, -9987954562, -9972904567,
  -9951847267, -9924795346, -9891765100, -9852776424,
  -9807852804, -9757021300, -9700312532, -9637760658,
  -9569403357, -9495281806, -9415440652, -9329927988,
  -9238795325, -9142097557, -9039892931, -8932243012,
  -8819212643, -8700869911, -8577286100, -8448535652,
  -8314696123, -8175848132, -8032075315, -7883464276,
  -7730104534, -7572088465, -7409511254, -7242470830,
  -7071067812, -6895405447, -6715589548, -6531728430,
  -6343932842, -6152315906, -5956993045, -5758081914,
  -5555702330, -5349976199, -5141027442, -4928981922,
  -4713967368, -4496113297, -4275550934, -4052413140,
  -3826834324, -3598950365, -3368898534, -3136817404,
  -2902846773, -2667127575, -2429801799, -2191012402,
  -1950903220, -1709618888, -1467304745, -1224106752,
  -980171403, -735645636, -490676743, -245412285]

/-- Compile-time conversion of one decimal literal (scaled by `10^10`) to an
`ap_fixed<32,16>` raw payload: the value is multiplied by `2^16` and quantised
with the default `AP_TRN` mode (truncation toward minus infinity, i.e. floor),
which on the exact rational `n / 10^10` is the floor division below.  All
table magnitudes are at most `1.0`, so no overflow handling is involved. -/
def quantize (lit : ℤ) : ℤ := Int.fdiv (lit * 2 ^ 16) (10 ^ 10)

/-- Twiddle-factor ROM `TW_REAL[k]` as a raw Q16.16 payload. -/
def TW_REAL (k : ℕ) : ℤ := quantize (TW_REAL_LITS.getD k 0)

/-- Twiddle-factor ROM `TW_IMAG[k]` as a raw Q16.16 payload. -/
def TW_IMAG (k : ℕ) : ℤ := quantize (TW_IMAG_LITS.getD k 0)

/-- `half` of the source butterfly loop: `1 << stage`. -/
def halfOf (stage : ℕ) : ℕ := 1 <<< stage

/-- `tw_stride` of the source butterfly loop: `FFT_SIZE >> (stage + 1)`. -/
def twStride (stage : ℕ) : ℕ := FFT_SIZE >>> (stage + 1)

/-- `j` of the source butterfly loop: `k & (half - 1)`. -/
def jIdx (stage k : ℕ) : ℕ := k &&& (halfOf stage - 1)

/-- `group` of the source butterfly loop: `(k >> stage) << (stage + 1)`. -/
def groupIdx (stage k : ℕ) : ℕ := (k >>> stage) <<< (stage + 1)

/-- `idx_top` of the source butterfly loop: `group + j`. -/
def idxTop (stage k : ℕ) : ℕ := groupIdx stage k + jIdx stage k

/-- `idx_bot` of the source butterfly loop: `group + j + half`. -/
def idxBot (stage k : ℕ) : ℕ := groupIdx stage k + jIdx stage k + halfOf stage

/-- `tw_idx` of the source butterfly loop: `j * tw_stride`. -/
def twIdx (stage k : ℕ) : ℕ := jIdx stage k * twStride stage

/-- The local `tr` of `BUTTERFLY_LOOP`: real part of the twiddled lower
operand, `(fixed_t)(br * tw_r) - (fixed_t)(bi * tw_i)`. -/
def trOf (stage : ℕ) (st : (ℕ → ℤ) × (ℕ → ℤ)) (k : ℕ) : ℤ :=
  fsub (fmul (st.1 (idxBot stage k)) (TW_REAL (twIdx stage k)))
       (fmul (st.2 (idxBot stage k)) (TW_IMAG (twIdx stage k)))

/-- The local `ti` of `BUTTERFLY_LOOP`: imaginary part of the twiddled lower
operand, `(fixed_t)(br * tw_i) + (fixed_t)(bi * tw_r)`. -/
def tiOf (stage : ℕ) (st : (ℕ → ℤ) × (ℕ → ℤ)) (k : ℕ) : ℤ :=
  fadd (fmul (st.1 (idxBot stage k)) (TW_IMAG (twIdx stage k)))
       (fmul (st.2 (idxBot stage k)) (TW_REAL (twIdx stage k)))

/-- One iteration of `BUTTERFLY_LOOP` in `fft_stages`: load the twiddle pair
and the operands `(ar, ai)` at `idx_top` and `(br, bi)` at `idx_bot`, form
the twiddled lower sample `(tr, ti)`, write `ar + tr` to the top slot and
`ar - tr` to the bottom slot (likewise for the imaginary buffer). -/
def butterfly (stage : ℕ) (st : (ℕ → ℤ) × (ℕ → ℤ)) (k : ℕ) : (ℕ → ℤ) × (ℕ → ℤ) :=
  (Function.update
     (Function.update st.1 (idxTop stage k) (fadd (st.1 (idxTop stage k)) (trOf stage st k)))
     (idxBot stage k) (fsub (st.1 (idxTop stage k)) (trOf stage st k)),
   Function.update
     (Function.update st.2 (idxTop stage k) (fadd (st.2 (idxTop stage k)) (tiOf stage st k)))
     (idxBot stage k) (fsub (st.2 (idxTop stage k)) (tiOf stage st k)))

/-- One full pass of `BUTTERFLY_LOOP`: the 128 butterflies of one stage, in
source order `k = 0, 1, ..., 127`. -/
def run_stage (st : (ℕ → ℤ) × (ℕ → ℤ)) (stage : ℕ) : (ℕ → ℤ) × (ℕ → ℤ) :=
  (List.range (FFT_SIZE / 2)).foldl (butterfly stage) st

/-- `fft_stages` from `fft.cpp`: copy the input into the working buffers (the
copy loops are the identity on the functional buffers) and run the 8 stages
in order. -/
def fft_stages (inr ini : ℕ → ℤ) : (ℕ → ℤ) × (ℕ → ℤ) :=
  (List.range LOG2_FFT_SIZE).foldl run_stage (inr, ini)

/-- The all-ones sideband value: the source assigns `-1` to the 8-bit wide
`keep` and `strb` fields of `ap_axiu<64,0,0,0>`, which wraps to `2^8 - 1`. -/
def allOnes8 : ℕ := ((-1 : ℤ) % 2 ^ 8).toNat

/-- `write_output` from `fft.cpp`: 256 words in index order; word `i` packs
`(real_buf[i], imag_buf[i])`, sets both sidebands to all ones and raises
`last` exactly on the final word. -/
def write_output (rb ib : ℕ → ℤ) : List Axis :=
  (List.range FFT_SIZE).map fun i =>
    { data := pack_data (rb i) (ib i)
      keep := allOnes8
      strb := allOnes8
      last := decide (i = FFT_SIZE - 1) }

/-- The top-level `fft` function: reader, permuter, butterfly core, writer,
run to completion in that order on one frame. -/
def fft (ws : List Axis) : List Axis :=
  let bufs := read_input ws
  let rev := bit_reverse bufs.1 bufs.2
  let outs := fft_stages rev.1 rev.2
  write_output outs.1 outs.2

/-! Definitions taken from the specification's wording, used to state the
refinement claims that compare the code against the spec's formulas. -/

/-- Fixed-point multiplication as §4.1 of the spec words it: sign-extend both
32-bit operands to 64 bits (the identity on the signed integer payloads),
multiply, arithmetic-shift the product right by 16 (`>>>` on `ℤ` is the
arithmetic shift of the sign-extended pattern), and retain the low 32 bits of
the result with wrap. -/
def mulSpec (a b : ℤ) : ℤ := wrap32 ((a * b) >>> (16 : ℕ))

/-- The butterfly operation as §4.4 of the spec words it: load `(ar, ai)` at
`top` and `(br, bi)` at `bot`, compute the twiddled lower sample
`tr = br*tw_r - bi*tw_i`, `ti = br*tw_i + bi*tw_r` with the §4.1 multiply and
32-bit wrap add/sub, and write back sum and difference. -/
def butterflySpec (stage : ℕ) (st : (ℕ → ℤ) × (ℕ → ℤ)) (k : ℕ) : (ℕ → ℤ) × (ℕ → ℤ) :=
  let top := idxTop stage k
  let bot := idxBot stage k
  let tw_r := TW_REAL (twIdx stage k)
  let tw_i := TW_IMAG (twIdx stage k)
  let ar := st.1 top
  let ai := st.2 top
  let br := st.1 bot
  let bi := st.2 bot
  let tr := wrap32 (mulSpec br tw_r - mulSpec bi tw_i)
  let ti := wrap32 (mulSpec br tw_i + mulSpec bi tw_r)
  (Function.update (Function.update st.1 top (wrap32 (ar + tr))) bot (wrap32 (ar - tr)),
   Function.update (Function.update st.2 top (wrap32 (ai + ti))) bot (wrap32 (ai - ti)))

/-- Butterflies per group as §4.4 of the spec words it: `half = 2 ^ stage`. -/
def halfSpec (stage : ℕ) : ℕ := 2 ^ stage

/-- Intra-group position as the spec words it: `j = k mod half`. -/
def jSpec (stage k : ℕ) : ℕ := k % halfSpec stage

/-- Group base as the spec words it: `group = (k / half) * (2 * half)`. -/
def groupSpec (stage k : ℕ) : ℕ := k / halfSpec stage * (2 * halfSpec stage)

/-- Twiddle step as the spec words it: `tw_stride = 128 / half`. -/
def twStrideSpec (stage : ℕ) : ℕ := 128 / halfSpec stage

/-- The butterfly index `k` that owns buffer index `i` in a given stage:
inverse of the `idxTop` / `idxBot` index computation, used to track which
loop iteration writes each buffer cell. -/
def owner (stage i : ℕ) : ℕ := ((i >>> (stage + 1)) <<< stage) + (i &&& (halfOf stage - 1))

/-- The input frame of the spec's constant-input scenario: 256 words, every
sample `(c, 0)`, well-framed (`last` exactly on word 255). -/
def constFrame (c : ℤ) : List Axis :=
  (List.range FFT_SIZE).map fun k =>
    { data := pack_data c 0, keep := allOnes8, strb := allOnes8,
      last := decide (k = FFT_SIZE - 1) }

/-- The misframed input of the spec's §8 scenario 6: 256 zero-sample words
with `last = true` on word 128 (so also `last = false` on word 255). -/
def misframedInput : List Axis :=
  (List.range FFT_SIZE).map fun k =>
    { data := pack_data 0 0, keep := allOnes8, strb := allOnes8,
      last := decide (k = 128) }

/-- Truncation toward zero of a real value to an integer, the conversion rule
the spec claims for the twiddle table (claim C4). -/
noncomputable def truncTowardZero (x : ℝ) : ℤ := if 0 ≤ x then ⌊x⌋ else -⌊-x⌋

/-- Lower corner of the product of two integer intervals. -/
def mulLo (xl xh yl yh : ℤ) : ℤ := min (min (xl * yl) (xl * yh)) (min (xh * yl) (xh * yh))

/-- Upper corner of the product of two integer intervals. -/
def mulHi (xl xh yl yh : ℤ) : ℤ := max (max (xl * yl) (xl * yh)) (max (xh * yl) (xh * yh))

/-- Certified lower bound for `2^44 * cos (pi / 128)`. -/
def c1lo : ℤ := 17586887606886

/-- Certified upper bound for `2^44 * cos (pi / 128)`. -/
def c1hi : ℤ := 17586887606887

/-- Certified lower bound for `2^44 * sin (pi / 128)`. -/
def s1lo : ℤ := 431733857933

/-- Certified upper bound for `2^44 * sin (pi / 128)`. -/
def s1hi : ℤ := 431733857934

/-- A rational interval (at scale `2^44`) containing `(cos t, sin t)` for one
angle `t`. -/
structure TrigIv where
  cl : ℤ
  ch : ℤ
  sl : ℤ
  sh : ℤ
deriving DecidableEq, Repr

/-- One interval rotation by `pi / 128`: the angle-addition formulas evaluated
in outward-rounded interval arithmetic at scale `2^44`. -/
def trigStep (iv : TrigIv) : TrigIv where
  cl := Int.fdiv (mulLo iv.cl iv.ch c1lo c1hi - mulHi iv.sl iv.sh s1lo s1hi) (2 ^ 44)
  ch := -Int.fdiv (-(mulHi iv.cl iv.ch c1lo c1hi - mulLo iv.sl iv.sh s1lo s1hi)) (2 ^ 44)
  sl := Int.fdiv (mulLo iv.sl iv.sh c1lo c1hi + mulLo iv.cl iv.ch s1lo s1hi) (2 ^ 44)
  sh := -Int.fdiv (-(mulHi iv.sl iv.sh c1lo c1hi + mulHi iv.cl iv.ch s1lo s1hi)) (2 ^ 44)

/-- Certified interval for `(cos (k * pi / 128), sin (k * pi / 128))`,
obtained by rotating the exact interval for angle zero `k` times. -/
def trigIv : ℕ → TrigIv
  | 0 => ⟨2 ^ 44, 2 ^ 44, 0, 0⟩
  | n + 1 => trigStep (trigIv n)


end FFT

namespace FFT

theorem wrap32_idem (x : ℤ) : wrap32 (wrap32 x) = wrap32 x := by unfold wrap32; omega

theorem wrap32_eq_self {x : ℤ} (h1 : -(2 ^ 31) ≤ x) (h2 : x < 2 ^ 31) : wrap32 x = x := by
  unfold wrap32; omega

theorem wrap32_bounds (x : ℤ) : -(2 ^ 31) ≤ wrap32 x ∧ wrap32 x < 2 ^ 31 := by
  unfold wrap32; omega

theorem wrap32_add_left (a b : ℤ) : wrap32 (wrap32 a + b) = wrap32 (a + b) := by
  unfold wrap32; omega

theorem toSigned_toRaw {x : ℤ} (h1 : -(2 ^ 31) ≤ x) (h2 : x < 2 ^ 31) : toSigned (toRaw x) = x := by
  unfold toSigned toRaw; split <;> omega

theorem unpack_pack {r i : ℤ} (hr1 : -(2 ^ 31) ≤ r) (hr2 : r < 2 ^ 31)
    (hi1 : -(2 ^ 31) ≤ i) (hi2 : i < 2 ^ 31) :
    unpack_data (pack_data r i) = (r, i) := by
  unfold unpack_data pack_data toSigned toRaw
  refine Prod.ext ?_ ?_ <;> simp only [] <;> split <;> omega

set_option maxRecDepth 4000 in
theorem bitrev_lt : ∀ i, i < 256 → bit_reverse_idx i < 256 := by decide

set_option maxRecDepth 4000 in
theorem bitrev_invol : ∀ i, i < 256 → bit_reverse_idx (bit_reverse_idx i) = i := by decide

set_option maxRecDepth 4000 in
theorem bitrev_bit : ∀ i, i < 256 → ∀ b, b < 8 → (bit_reverse_idx i).testBit (7 - b) = i.testBit b := by decide

end FFT

namespace FFT

set_option maxRecDepth 8000 in
theorem idx_bounds : ∀ s, s < 8 → ∀ k, k < 128 →
    idxTop s k < 256 ∧ idxBot s k < 256 ∧ twIdx s k < 128 := by decide

set_option maxRecDepth 8000 in
theorem owner_idx : ∀ s, s < 8 → ∀ k, k < 128 →
    owner s (idxTop s k) = k ∧ owner s (idxBot s k) = k ∧ idxTop s k ≠ idxBot s k := by decide

set_option maxRecDepth 8000 in
theorem owner_cover : ∀ s, s < 8 → ∀ i, i < 256 →
    owner s i < 128 ∧ (i = idxTop s (owner s i) ∨ i = idxBot s (owner s i)) := by decide

set_option maxRecDepth 8000 in
theorem jzero_facts : ∀ s, s < 8 → ∀ k, k < 128 → jIdx s k = 0 →
    twIdx s k = 0 ∧ 2 ^ (s + 1) ∣ idxTop s k ∧ 2 ^ s ∣ idxBot s k ∧ ¬ 2 ^ (s + 1) ∣ idxBot s k := by decide

set_option maxRecDepth 8000 in
theorem jpos_facts : ∀ s, s < 8 → ∀ k, k < 128 → jIdx s k ≠ 0 →
    ¬ 2 ^ s ∣ idxTop s k ∧ ¬ 2 ^ s ∣ idxBot s k := by decide

end FFT

namespace FFT

theorem br_fold (inr ini : ℕ → ℤ) : ∀ m, m ≤ 256 → ∀ i, i < m →
    ((List.range m).foldl (brStep inr ini) (fun _ => 0, fun _ => 0)).1 (bit_reverse_idx i) = inr i ∧
    ((List.range m).foldl (brStep inr ini) (fun _ => 0, fun _ => 0)).2 (bit_reverse_idx i) = ini i := by
  intro m
  induction m with
  | zero => intro _ i hi; omega
  | succ n ih =>
    intro hm i hi
    rw [List.range_succ, List.foldl_append, List.foldl_cons, List.foldl_nil]
    rcases Nat.lt_succ_iff_lt_or_eq.mp hi with h | h
    · have hne : bit_reverse_idx i ≠ bit_reverse_idx n := by
        intro he
        have h1 := bitrev_invol i (by omega)
        have h2 := bitrev_invol n (by omega)
        rw [he, h2] at h1
        omega
      simp only [brStep]
      rw [Function.update_noteq hne, Function.update_noteq hne]
      exact ih (by omega) i h
    · subst h
      simp only [brStep]
      rw [Function.update_same, Function.update_same]
      exact ⟨rfl, rfl⟩

theorem map_range_getD {α : Type} (f : ℕ → α) (d : α) {n m : ℕ} (h : n < m) :
    ((List.range m).map f).getD n d = f n := by
  rw [List.getD_eq_getElem?_getD, List.getElem?_map, List.getElem?_range h]
  rfl

theorem fmul_eq_mulSpec (a b : ℤ) : fmul a b = mulSpec a b := by
  unfold fmul mulSpec
  rw [Int.shiftRight_eq_div_pow, Int.fdiv_eq_ediv _ (by norm_num)]
  norm_num

/-- C5: the bit-reversal permuter establishes `out_real[bitrev8 i] = in_real[i]`
and `out_imag[bitrev8 i] = in_imag[i]` for every `i < 256`, where `bitrev8`
sends bit `b` of the index to bit `7 - b`. -/
theorem C5_bit_reverse_permutes (inr ini : ℕ → ℤ) : ∀ i, i < 256 →
    (bit_reverse inr ini).1 (bit_reverse_idx i) = inr i ∧
    (bit_reverse inr ini).2 (bit_reverse_idx i) = ini i ∧
    (∀ b, b < 8 → (bit_reverse_idx i).testBit (7 - b) = i.testBit b) := by
  intro i hi
  have h := br_fold inr ini 256 (by omega) i hi
  exact ⟨h.1, h.2, fun b hb => bitrev_bit i hi b hb⟩

theorem C5_witness :
    (7 : ℕ) < 256 ∧
    ((bit_reverse (fun j => (j : ℤ)) (fun j => (2 * j : ℤ))).1 (bit_reverse_idx 7) = 7 ∧
     (bit_reverse (fun j => (j : ℤ)) (fun j => (2 * j : ℤ))).2 (bit_reverse_idx 7) = 14 ∧
     (∀ b, b < 8 → (bit_reverse_idx 7).testBit (7 - b) = (7 : ℕ).testBit b)) := by
  refine ⟨by norm_num, ?_⟩
  have h := C5_bit_reverse_permutes (fun j => (j : ℤ)) (fun j => (2 * j : ℤ)) 7 (by norm_num)
  simpa using h

set_option maxRecDepth 4000 in
/-- C8: the bit-reversal index map is an involution on `[0, 256)`. -/
theorem C8_bitrev_involution : ∀ i, i < 256 → bit_reverse_idx (bit_reverse_idx i) = i := by decide

theorem C8_witness : (6 : ℕ) < 256 ∧ bit_reverse_idx (bit_reverse_idx 6) = 6 :=
  ⟨by norm_num, C8_bitrev_involution 6 (by norm_num)⟩

set_option maxRecDepth 8000 in
/-- C6: the code's bit-twiddling index computations agree with the spec's
arithmetic formulas for every stage below 8 and every butterfly below 128. -/
theorem C6_index_formulas_agree : ∀ s, s < 8 → ∀ k, k < 128 →
    halfOf s = halfSpec s ∧ jIdx s k = jSpec s k ∧
    groupIdx s k = groupSpec s k ∧ twStride s = twStrideSpec s := by decide

theorem C6_witness : (5 : ℕ) < 8 ∧ (99 : ℕ) < 128 ∧
    (halfOf 5 = halfSpec 5 ∧ jIdx 5 99 = jSpec 5 99 ∧
     groupIdx 5 99 = groupSpec 5 99 ∧ twStride 5 = twStrideSpec 5) :=
  ⟨by norm_num, by norm_num, C6_index_formulas_agree 5 (by norm_num) 99 (by norm_num)⟩

set_option maxRecDepth 8000 in
/-- C7: all butterfly indices stay in range: the top and bottom buffer indices
are below 256 and the twiddle index below 128, so every array access of the
butterfly core is in bounds. -/
theorem C7_indices_in_range : ∀ s, s < 8 → ∀ k, k < 128 →
    idxTop s k < 256 ∧ idxBot s k < 256 ∧ twIdx s k < 128 := by decide

theorem C7_witness : (7 : ℕ) < 8 ∧ (127 : ℕ) < 128 ∧
    (idxTop 7 127 < 256 ∧ idxBot 7 127 < 256 ∧ twIdx 7 127 < 128) :=
  ⟨by norm_num, by norm_num, C7_indices_in_range 7 (by norm_num) 127 (by norm_num)⟩

/-- C10: unpacking the 64-bit word produced by packing a pair of Q16.16
payloads returns exactly that pair. -/
theorem C10_pack_unpack_roundtrip (r i : ℤ)
    (hr1 : -(2 ^ 31) ≤ r) (hr2 : r < 2 ^ 31) (hi1 : -(2 ^ 31) ≤ i) (hi2 : i < 2 ^ 31) :
    unpack_data (pack_data r i) = (r, i) :=
  unpack_pack hr1 hr2 hi1 hi2

theorem C10_witness :
    (-(2 ^ 31) : ℤ) ≤ -123456 ∧ (-123456 : ℤ) < 2 ^ 31 ∧
    (-(2 ^ 31) : ℤ) ≤ 789 ∧ (789 : ℤ) < 2 ^ 31 ∧
    unpack_data (pack_data (-123456) 789) = (-123456, 789) :=
  ⟨by norm_num, by norm_num, by norm_num, by norm_num,
   C10_pack_unpack_roundtrip (-123456) 789 (by norm_num) (by norm_num) (by norm_num) (by norm_num)⟩

/-- C3: for every stage below 8 and butterfly below 128 the code's butterfly
body equals the spec's §4.4 formulas: both load at `top`/`bot`, form the
twiddled lower sample with the §4.1 multiply (sign-extend, multiply,
arithmetic shift right 16, wrap to 32 bits), and write back wrapped
sum/difference. -/
theorem C3_butterfly_matches_spec : ∀ s, s < 8 → ∀ k, k < 128 →
    ∀ st : (ℕ → ℤ) × (ℕ → ℤ), butterfly s st k = butterflySpec s st k := by
  intro s _ k _ st
  unfold butterfly butterflySpec trOf tiOf
  simp only [fmul_eq_mulSpec, fadd, fsub]

theorem C3_witness : (0 : ℕ) < 8 ∧ (0 : ℕ) < 128 ∧
    butterfly 0 (fun _ => 3, fun _ => 4) 0 = butterflySpec 0 (fun _ => 3, fun _ => 4) 0 :=
  ⟨by norm_num, by norm_num, C3_butterfly_matches_spec 0 (by norm_num) 0 (by norm_num) _⟩

/-- C9: the writer emits exactly 256 words in index order; word `n` packs the
`n`-th buffer pair, both sideband fields are the all-ones pattern, and the
last flag is raised exactly on word 255. -/
theorem C9_writer_frame (rb ib : ℕ → ℤ) :
    (write_output rb ib).length = 256 ∧
    ∀ n, n < 256 →
      ((write_output rb ib).getD n defaultAxis).data = pack_data (rb n) (ib n) ∧
      ((write_output rb ib).getD n defaultAxis).keep = 2 ^ 8 - 1 ∧
      ((write_output rb ib).getD n defaultAxis).strb = 2 ^ 8 - 1 ∧
      (((write_output rb ib).getD n defaultAxis).last = true ↔ n = 255) := by
  constructor
  · simp [write_output, FFT_SIZE]
  · intro n hn
    unfold write_output
    rw [map_range_getD _ _ (show n < FFT_SIZE by simpa [FFT_SIZE] using hn)]
    refine ⟨rfl, by simp [allOnes8], by simp [allOnes8], ?_⟩
    simp [FFT_SIZE]

theorem C9_witness :
    (write_output (fun _ => 5) (fun _ => -6)).length = 256 ∧
    (255 : ℕ) < 256 ∧
    ((write_output (fun _ => 5) (fun _ => -6)).getD 255 defaultAxis).data = pack_data 5 (-6) ∧
    (((write_output (fun _ => 5) (fun _ => -6)).getD 255 defaultAxis).last = true ↔ (255 : ℕ) = 255) := by
  have h := C9_writer_frame (fun _ => 5) (fun _ => -6)
  exact ⟨h.1, by norm_num, (h.2 255 (by norm_num)).1, (h.2 255 (by norm_num)).2.2.2⟩

end FFT

namespace FFT

theorem data_eq_of_map_eq {ws ws' : List Axis} (h : ws.map Axis.data = ws'.map Axis.data)
    (i : ℕ) : (ws.getD i defaultAxis).data = (ws'.getD i defaultAxis).data := by
  have h1 : (ws.map Axis.data)[i]? = (ws'.map Axis.data)[i]? := by rw [h]
  rw [List.getElem?_map, List.getElem?_map] at h1
  rw [List.getD_eq_getElem?_getD, List.getD_eq_getElem?_getD]
  cases hw : ws[i]? with
  | none =>
    cases hw2 : ws'[i]? with
    | none => rfl
    | some b => rw [hw, hw2] at h1; simp at h1
  | some a =>
    cases hw2 : ws'[i]? with
    | none => rw [hw, hw2] at h1; simp at h1
    | some b => rw [hw, hw2] at h1; simpa using h1

theorem read_input_data_only {ws ws' : List Axis}
    (h : ws.map Axis.data = ws'.map Axis.data) : read_input ws = read_input ws' := by
  unfold read_input
  have : riStep ws = riStep ws' := by
    funext bufs i
    unfold riStep
    rw [data_eq_of_map_eq h]
  rw [this]

theorem fft_length (ws : List Axis) : (fft ws).length = 256 := by
  simp [fft, write_output, FFT_SIZE]

/-- C1 (amended): the frame reader performs no framing validation and cannot
fail: the transform consumes the 256 data payloads and ignores every last
flag (any two input streams with the same payloads produce identical output),
and an output frame of 256 words is produced even for misframed input. -/
theorem C1_reader_ignores_framing (ws ws' : List Axis)
    (h : ws.map Axis.data = ws'.map Axis.data) :
    fft ws = fft ws' ∧ (fft ws).length = 256 := by
  constructor
  · unfold fft
    rw [read_input_data_only h]
  · exact fft_length ws

theorem C1_witness :
    misframedInput.map Axis.data = (constFrame 0).map Axis.data ∧
    fft misframedInput = fft (constFrame 0) ∧ (fft misframedInput).length = 256 := by
  have h : misframedInput.map Axis.data = (constFrame 0).map Axis.data := by
    unfold misframedInput constFrame
    rw [List.map_map, List.map_map]
    rfl
  exact ⟨h, (C1_reader_ignores_framing misframedInput (constFrame 0) h).1,
    (C1_reader_ignores_framing misframedInput (constFrame 0) h).2⟩

/-- C1 counterexample: on the spec's §8 scenario-6 input (256 words with
`last = true` on word 128) the engine raises no framing error and still
produces the full 256-word output frame, contradicting the claim that the
reader fails and the frame's output is not produced. -/
theorem C1_counterexample :
    (misframedInput.getD 128 defaultAxis).last = true ∧
    (misframedInput.getD 255 defaultAxis).last = false ∧
    misframedInput.length = 256 ∧
    (fft misframedInput).length = 256 := by
  refine ⟨?_, ?_, ?_, fft_length misframedInput⟩
  · unfold misframedInput
    rw [map_range_getD _ _ (show (128 : ℕ) < FFT_SIZE by norm_num [FFT_SIZE])]
    simp
  · unfold misframedInput
    rw [map_range_getD _ _ (show (255 : ℕ) < FFT_SIZE by norm_num [FFT_SIZE])]
    simp
  · simp [misframedInput, FFT_SIZE]

end FFT

namespace FFT

theorem wrap32_zero : wrap32 0 = 0 := by unfold wrap32; omega

theorem fmul_one (a : ℤ) : fmul a 65536 = wrap32 a := by
  unfold fmul
  rw [show (2 ^ 16 : ℤ) = 65536 by norm_num, Int.mul_fdiv_cancel _ (by norm_num)]

theorem fmul_zero_left (b : ℤ) : fmul 0 b = 0 := by
  unfold fmul
  rw [zero_mul, Int.zero_fdiv, wrap32_zero]

theorem fmul_zero_right (a : ℤ) : fmul a 0 = 0 := by
  unfold fmul
  rw [mul_zero, Int.zero_fdiv, wrap32_zero]

theorem TW_REAL_zero : TW_REAL 0 = 65536 := by decide

theorem TW_IMAG_zero : TW_IMAG 0 = 0 := by decide

theorem butterfly_apply (s k : ℕ) (st : (ℕ → ℤ) × (ℕ → ℤ)) (i : ℕ) :
    ((butterfly s st k).1 i =
      if i = idxBot s k then fsub (st.1 (idxTop s k)) (trOf s st k)
      else if i = idxTop s k then fadd (st.1 (idxTop s k)) (trOf s st k)
      else st.1 i) ∧
    ((butterfly s st k).2 i =
      if i = idxBot s k then fsub (st.2 (idxTop s k)) (tiOf s st k)
      else if i = idxTop s k then fadd (st.2 (idxTop s k)) (tiOf s st k)
      else st.2 i) := by
  unfold butterfly
  constructor <;> simp only [Function.update_apply] 

theorem butterfly_fold (s : ℕ) (hs : s < 8) (c : ℤ) (st : (ℕ → ℤ) × (ℕ → ℤ))
    (hwr : ∀ i, i < 256 → st.1 i = if 2 ^ s ∣ i then wrap32 (2 ^ s * c) else 0)
    (hwi : ∀ i, i < 256 → st.2 i = 0) :
    ∀ k0, k0 ≤ 128 → ∀ i,
      (((List.range k0).foldl (butterfly s) st).1 i =
        if i < 256 ∧ owner s i < k0 then
          (if 2 ^ (s + 1) ∣ i then wrap32 (2 ^ (s + 1) * c) else 0)
        else st.1 i) ∧
      ((List.range k0).foldl (butterfly s) st).2 i = st.2 i := by
  intro k0
  induction k0 with
  | zero => intro _ i; simp
  | succ n ih =>
    intro hn i
    rw [List.range_succ, List.foldl_append, List.foldl_cons, List.foldl_nil]
    have hn128 : n < 128 := by omega
    have hb := idx_bounds s hs n hn128
    have ho := owner_idx s hs n hn128
    have ihw := ih (by omega)
    set P := (List.range n).foldl (butterfly s) st with hP
    -- values sitting at the two slots before butterfly n runs
    have htopv : P.1 (idxTop s n) = st.1 (idxTop s n) := by
      rw [(ihw (idxTop s n)).1, if_neg]
      rintro ⟨-, hlt⟩
      rw [ho.1] at hlt
      omega
    have hbotv : P.1 (idxBot s n) = st.1 (idxBot s n) := by
      rw [(ihw (idxBot s n)).1, if_neg]
      rintro ⟨-, hlt⟩
      rw [ho.2.1] at hlt
      omega
    have htopi : P.2 (idxTop s n) = 0 := by rw [(ihw _).2]; exact hwi _ hb.1
    have hboti : P.2 (idxBot s n) = 0 := by rw [(ihw _).2]; exact hwi _ hb.2.1
    -- the written values
    have hwrite : (fadd (P.1 (idxTop s n)) (trOf s P n) =
          (if 2 ^ (s + 1) ∣ idxTop s n then wrap32 (2 ^ (s + 1) * c) else 0)) ∧
        (fsub (P.1 (idxTop s n)) (trOf s P n) =
          (if 2 ^ (s + 1) ∣ idxBot s n then wrap32 (2 ^ (s + 1) * c) else 0)) ∧
        fadd (P.2 (idxTop s n)) (tiOf s P n) = 0 ∧
        fsub (P.2 (idxTop s n)) (tiOf s P n) = 0 := by
      by_cases hj : jIdx s n = 0
      · obtain ⟨htw, hdt, hdb, hndb⟩ := jzero_facts s hs n hn128 hj
        have hst : 2 ^ s ∣ idxTop s n := dvd_trans (pow_dvd_pow 2 (Nat.le_succ s)) hdt
        have har : P.1 (idxTop s n) = wrap32 (2 ^ s * c) := by
          rw [htopv, hwr _ hb.1, if_pos hst]
        have hbr : P.1 (idxBot s n) = wrap32 (2 ^ s * c) := by
          rw [hbotv, hwr _ hb.2.1, if_pos hdb]
        have htr : trOf s P n = wrap32 (2 ^ s * c) := by
          unfold trOf
          rw [hbr, hboti, htw, TW_REAL_zero, TW_IMAG_zero, fmul_zero_left, fmul_one]
          unfold fsub wrap32
          omega
        have hti : tiOf s P n = 0 := by
          unfold tiOf
          rw [hbr, hboti, htw, TW_REAL_zero, TW_IMAG_zero, fmul_zero_left, fmul_zero_right]
          unfold fadd wrap32
          omega
        refine ⟨?_, ?_, ?_, ?_⟩
        · rw [har, htr, if_pos hdt]
          unfold fadd wrap32
          rw [pow_succ]
          ring_nf
          omega
        · rw [har, htr, if_neg hndb]
          unfold fsub wrap32
          omega
        · rw [htopi, hti]
          unfold fadd wrap32
          omega
        · rw [htopi, hti]
          unfold fsub wrap32
          omega
      · obtain ⟨hnt, hnb⟩ := jpos_facts s hs n hn128 hj
        have hns1t : ¬ 2 ^ (s + 1) ∣ idxTop s n := fun hd =>
          hnt (dvd_trans (pow_dvd_pow 2 (Nat.le_succ s)) hd)
        have hns1b : ¬ 2 ^ (s + 1) ∣ idxBot s n := fun hd =>
          hnb (dvd_trans (pow_dvd_pow 2 (Nat.le_succ s)) hd)
        have har : P.1 (idxTop s n) = 0 := by rw [htopv, hwr _ hb.1, if_neg hnt]
        have hbr : P.1 (idxBot s n) = 0 := by rw [hbotv, hwr _ hb.2.1, if_neg hnb]
        have htr : trOf s P n = 0 := by
          unfold trOf
          rw [hbr, hboti, fmul_zero_left, fmul_zero_left]
          unfold fsub wrap32
          omega
        have hti : tiOf s P n = 0 := by
          unfold tiOf
          rw [hbr, hboti, fmul_zero_left, fmul_zero_left]
          unfold fadd wrap32
          omega
        refine ⟨?_, ?_, ?_, ?_⟩
        · rw [har, htr, if_neg hns1t]
          unfold fadd wrap32
          omega
        · rw [har, htr, if_neg hns1b]
          unfold fsub wrap32
          omega
        · rw [htopi, hti]
          unfold fadd wrap32
          omega
        · rw [htopi, hti]
          unfold fsub wrap32
          omega
    -- now the pointwise goal
    have happ := butterfly_apply s n P i
    by_cases hib : i = idxBot s n
    · subst hib
      rw [happ.1, happ.2, if_pos rfl, if_pos rfl]
      have hc1 : idxBot s n < 256 ∧ owner s (idxBot s n) < n + 1 :=
        ⟨hb.2.1, by rw [ho.2.1]; omega⟩
      refine ⟨?_, ?_⟩
      · rw [hwrite.2.1, if_pos hc1]
      · rw [hwrite.2.2.2]
        exact (hwi _ hb.2.1).symm
    · by_cases hit : i = idxTop s n
      · subst hit
        rw [happ.1, happ.2, if_neg hib, if_neg hib, if_pos rfl, if_pos rfl]
        have hc2 : idxTop s n < 256 ∧ owner s (idxTop s n) < n + 1 :=
          ⟨hb.1, by rw [ho.1]; omega⟩
        refine ⟨?_, ?_⟩
        · rw [hwrite.1, if_pos hc2]
        · rw [hwrite.2.2.1]
          exact (hwi _ hb.1).symm
      · rw [happ.1, happ.2, if_neg hib, if_neg hib, if_neg hit, if_neg hit]
        have hcond : (i < 256 ∧ owner s i < n + 1) ↔ (i < 256 ∧ owner s i < n) := by
          constructor
          · rintro ⟨h1, h2⟩
            refine ⟨h1, ?_⟩
            rcases Nat.lt_succ_iff_lt_or_eq.mp h2 with h | h
            · exact h
            · exfalso
              have hcov := (owner_cover s hs i h1).2
              rw [h] at hcov
              rcases hcov with hh | hh
              · exact hit hh
              · exact hib hh
          · rintro ⟨h1, h2⟩
            exact ⟨h1, by omega⟩
        refine ⟨?_, (ihw i).2⟩
        rw [(ihw i).1]
        by_cases hc : i < 256 ∧ owner s i < n
        · rw [if_pos hc, if_pos (hcond.mpr hc)]
        · rw [if_neg hc, if_neg (fun hx => hc (hcond.mp hx))]

end FFT

namespace FFT

theorem run_stage_const (s : ℕ) (hs : s < 8) (c : ℤ) (st : (ℕ → ℤ) × (ℕ → ℤ))
    (hwr : ∀ i, i < 256 → st.1 i = if 2 ^ s ∣ i then wrap32 (2 ^ s * c) else 0)
    (hwi : ∀ i, i < 256 → st.2 i = 0) :
    ∀ i, i < 256 →
      ((run_stage st s).1 i = if 2 ^ (s + 1) ∣ i then wrap32 (2 ^ (s + 1) * c) else 0) ∧
      (run_stage st s).2 i = 0 := by
  intro i hi
  have h128 : FFT_SIZE / 2 = 128 := by norm_num [FFT_SIZE]
  have h := butterfly_fold s hs c st hwr hwi 128 (by omega) i
  unfold run_stage
  rw [h128]
  constructor
  · rw [h.1, if_pos ⟨hi, (owner_cover s hs i hi).1⟩]
  · rw [h.2]
    exact hwi i hi

theorem stages_fold (c : ℤ) (st : (ℕ → ℤ) × (ℕ → ℤ))
    (hwr : ∀ i, i < 256 → st.1 i = wrap32 c)
    (hwi : ∀ i, i < 256 → st.2 i = 0) :
    ∀ m, m ≤ 8 → ∀ i, i < 256 →
      (((List.range m).foldl run_stage st).1 i =
        if 2 ^ m ∣ i then wrap32 (2 ^ m * c) else 0) ∧
      ((List.range m).foldl run_stage st).2 i = 0 := by
  intro m
  induction m with
  | zero =>
    intro _ i hi
    simp only [List.range_zero, List.foldl_nil, pow_zero, one_mul]
    rw [if_pos (one_dvd i)]
    exact ⟨hwr i hi, hwi i hi⟩
  | succ n ih =>
    intro hm i hi
    rw [List.range_succ, List.foldl_append, List.foldl_cons, List.foldl_nil]
    exact run_stage_const n (by omega) c _ (fun j hj => (ih (by omega) j hj).1)
      (fun j hj => (ih (by omega) j hj).2) i hi

theorem read_input_fold (ws : List Axis) : ∀ m, m ≤ 256 → ∀ i, i < m →
    ((List.range m).foldl (riStep ws) (fun _ => 0, fun _ => 0)).1 i =
      (unpack_data (ws.getD i defaultAxis).data).1 ∧
    ((List.range m).foldl (riStep ws) (fun _ => 0, fun _ => 0)).2 i =
      (unpack_data (ws.getD i defaultAxis).data).2 := by
  intro m
  induction m with
  | zero => intro _ i hi; omega
  | succ n ih =>
    intro hm i hi
    rw [List.range_succ, List.foldl_append, List.foldl_cons, List.foldl_nil]
    rcases Nat.lt_succ_iff_lt_or_eq.mp hi with h | h
    · have hne : i ≠ n := by omega
      simp only [riStep]
      rw [Function.update_noteq hne, Function.update_noteq hne]
      exact ih (by omega) i h
    · subst h
      simp only [riStep]
      rw [Function.update_same, Function.update_same]
      exact ⟨rfl, rfl⟩

theorem read_const (c : ℤ) (h1 : -(2 ^ 31) ≤ c) (h2 : c < 2 ^ 31) :
    ∀ i, i < 256 →
      (read_input (constFrame c)).1 i = c ∧ (read_input (constFrame c)).2 i = 0 := by
  intro i hi
  have h := read_input_fold (constFrame c) 256 (by omega) i hi
  unfold read_input
  have hg : (constFrame c).getD i defaultAxis =
      { data := pack_data c 0, keep := allOnes8, strb := allOnes8,
        last := decide (i = FFT_SIZE - 1) } := by
    unfold constFrame
    exact map_range_getD _ _ (show i < FFT_SIZE by simpa [FFT_SIZE] using hi)
  have hu : unpack_data (pack_data c 0) = (c, 0) := unpack_pack h1 h2 (by norm_num) (by norm_num)
  constructor
  · show ((List.range 256).foldl (riStep (constFrame c)) (fun _ => 0, fun _ => 0)).1 i = c
    rw [h.1, hg]
    simp [hu]
  · show ((List.range 256).foldl (riStep (constFrame c)) (fun _ => 0, fun _ => 0)).2 i = 0
    rw [h.2, hg]
    simp [hu]

theorem rev_const (inr ini : ℕ → ℤ) (c : ℤ)
    (hr : ∀ i, i < 256 → inr i = c) (hi : ∀ i, i < 256 → ini i = 0) :
    ∀ j, j < 256 → (bit_reverse inr ini).1 j = c ∧ (bit_reverse inr ini).2 j = 0 := by
  intro j hj
  have hlt := bitrev_lt j hj
  have hinv := bitrev_invol j hj
  have h := br_fold inr ini 256 (by omega) (bit_reverse_idx j) hlt
  rw [hinv] at h
  exact ⟨h.1.trans (hr _ hlt), h.2.trans (hi _ hlt)⟩

theorem fft_pipeline (ws : List Axis) :
    fft ws = write_output
      (fft_stages (bit_reverse (read_input ws).1 (read_input ws).2).1
        (bit_reverse (read_input ws).1 (read_input ws).2).2).1
      (fft_stages (bit_reverse (read_input ws).1 (read_input ws).2).1
        (bit_reverse (read_input ws).1 (read_input ws).2).2).2 := rfl

theorem stages_apply (a b : ℕ → ℤ) (c : ℤ)
    (hwr : ∀ i, i < 256 → a i = wrap32 c) (hwi : ∀ i, i < 256 → b i = 0) :
    ∀ n, n < 256 →
      ((fft_stages a b).1 n = if 2 ^ 8 ∣ n then wrap32 (2 ^ 8 * c) else 0) ∧
      (fft_stages a b).2 n = 0 := by
  intro n hn
  have heq : fft_stages a b = (List.range 8).foldl run_stage (a, b) := by
    unfold fft_stages LOG2_FFT_SIZE
    rfl
  rw [heq]
  exact stages_fold c (a, b) hwr hwi 8 (by omega) n hn

set_option maxRecDepth 4000 in
/-- C2: on the constant frame (every sample `(c, 0)`), the transform emits a
256-word frame whose bin 0 holds `(256 * c mod 2^32, 0)` (two's-complement
wrap) and whose bins 1..255 all hold `(0, 0)` exactly. -/
theorem C2_constant_input (c : ℤ) (h1 : -(2 ^ 31) ≤ c) (h2 : c < 2 ^ 31) :
    (fft (constFrame c)).length = 256 ∧
    unpack_data ((fft (constFrame c)).getD 0 defaultAxis).data = (wrap32 (256 * c), 0) ∧
    ∀ n, 1 ≤ n → n < 256 →
      unpack_data ((fft (constFrame c)).getD n defaultAxis).data = (0, 0) := by
  have hrd := read_const c h1 h2
  have hrv := rev_const (read_input (constFrame c)).1 (read_input (constFrame c)).2 c
    (fun i hi => (hrd i hi).1) (fun i hi => (hrd i hi).2)
  have hwc : wrap32 c = c := wrap32_eq_self h1 h2
  have hstv := stages_apply
    (bit_reverse (read_input (constFrame c)).1 (read_input (constFrame c)).2).1
    (bit_reverse (read_input (constFrame c)).1 (read_input (constFrame c)).2).2 c
    (fun i hi => by rw [(hrv i hi).1, hwc]) (fun i hi => (hrv i hi).2)
  have hword : ∀ n, n < 256 →
      ((fft (constFrame c)).getD n defaultAxis).data = pack_data
        ((fft_stages (bit_reverse (read_input (constFrame c)).1
            (read_input (constFrame c)).2).1
          (bit_reverse (read_input (constFrame c)).1
            (read_input (constFrame c)).2).2).1 n)
        ((fft_stages (bit_reverse (read_input (constFrame c)).1
            (read_input (constFrame c)).2).1
          (bit_reverse (read_input (constFrame c)).1
            (read_input (constFrame c)).2).2).2 n) := by
    intro n hn
    rw [fft_pipeline]
    unfold write_output
    rw [map_range_getD _ _ (show n < FFT_SIZE from hn)]
  refine ⟨fft_length _, ?_, ?_⟩
  · rw [hword 0 (by norm_num), (hstv 0 (by norm_num)).1, (hstv 0 (by norm_num)).2,
      if_pos (dvd_zero _)]
    rw [show (2 ^ 8 * c : ℤ) = 256 * c by norm_num]
    exact unpack_pack (wrap32_bounds _).1 (wrap32_bounds _).2 (by norm_num) (by norm_num)
  · intro n hn1 hn2
    have hnd : ¬ (2 ^ 8 ∣ n) := by
      intro hd
      have := Nat.le_of_dvd (by omega) hd
      norm_num at this
      omega
    rw [hword n hn2, (hstv n hn2).1, (hstv n hn2).2, if_neg hnd]
    exact unpack_pack (by norm_num) (by norm_num) (by norm_num) (by norm_num)

theorem C2_witness :
    (-(2 ^ 31) : ℤ) ≤ 65536 ∧ (65536 : ℤ) < 2 ^ 31 ∧
    ((fft (constFrame 65536)).length = 256 ∧
     unpack_data ((fft (constFrame 65536)).getD 0 defaultAxis).data = (wrap32 (256 * 65536), 0) ∧
     ∀ n, 1 ≤ n → n < 256 →
       unpack_data ((fft (constFrame 65536)).getD n defaultAxis).data = (0, 0)) :=
  ⟨by norm_num, by norm_num, C2_constant_input 65536 (by norm_num) (by norm_num)⟩

end FFT

namespace FFT

set_option maxRecDepth 20000 in
theorem tw_checks : ∀ k, k < 128 → k ≠ 64 →
    (TW_REAL k * 2 ^ 44 ≤ 65536 * (trigIv k).cl ∧
     65536 * (trigIv k).ch < (TW_REAL k + 1) * 2 ^ 44) ∧
    (TW_IMAG k * 2 ^ 44 ≤ 65536 * (-(trigIv k).sh) ∧
     65536 * (-(trigIv k).sl) < (TW_IMAG k + 1) * 2 ^ 44) := by decide

end FFT

namespace FFT

open Real in
theorem sqrt_add_bounds {x q r lo hi : ℝ} (h1 : lo < x) (h2 : x < hi)
    (hq : 0 ≤ q) (hq2 : q ^ 2 < 2 + lo) (hr : 0 < r) (hr2 : 2 + hi < r ^ 2) :
    q < Real.sqrt (2 + x) ∧ Real.sqrt (2 + x) < r :=
  ⟨(Real.lt_sqrt hq).mpr (by linarith), (Real.sqrt_lt' hr).mpr (by linarith)⟩

open Real in
theorem sqrt_sub_bounds {x q r lo hi : ℝ} (h1 : lo < x) (h2 : x < hi)
    (hq : 0 ≤ q) (hq2 : q ^ 2 < 2 - hi) (hr : 0 < r) (hr2 : 2 - lo < r ^ 2) :
    q < Real.sqrt (2 - x) ∧ Real.sqrt (2 - x) < r :=
  ⟨(Real.lt_sqrt hq).mpr (by linarith), (Real.sqrt_lt' hr).mpr (by linarith)⟩

theorem t1_bounds : (1.41421356237309503 : ℝ) < Real.sqrtTwoAddSeries 0 1 ∧
    Real.sqrtTwoAddSeries 0 1 < 1.41421356237309506 := by
  rw [Real.sqrtTwoAddSeries_one]
  exact ⟨(Real.lt_sqrt (by norm_num)).mpr (by norm_num),
    (Real.sqrt_lt' (by norm_num)).mpr (by norm_num)⟩

theorem t2_bounds : (1.84775906502257350 : ℝ) < Real.sqrtTwoAddSeries 0 2 ∧
    Real.sqrtTwoAddSeries 0 2 < 1.84775906502257353 := by
  rw [show Real.sqrtTwoAddSeries 0 2 = Real.sqrt (2 + Real.sqrtTwoAddSeries 0 1) from rfl]
  exact sqrt_add_bounds t1_bounds.1 t1_bounds.2 (by norm_num) (by norm_num) (by norm_num)
    (by norm_num)

theorem t3_bounds : (1.96157056080646088 : ℝ) < Real.sqrtTwoAddSeries 0 3 ∧
    Real.sqrtTwoAddSeries 0 3 < 1.96157056080646091 := by
  rw [show Real.sqrtTwoAddSeries 0 3 = Real.sqrt (2 + Real.sqrtTwoAddSeries 0 2) from rfl]
  exact sqrt_add_bounds t2_bounds.1 t2_bounds.2 (by norm_num) (by norm_num) (by norm_num)
    (by norm_num)

theorem t4_bounds : (1.99036945334439376 : ℝ) < Real.sqrtTwoAddSeries 0 4 ∧
    Real.sqrtTwoAddSeries 0 4 < 1.99036945334439379 := by
  rw [show Real.sqrtTwoAddSeries 0 4 = Real.sqrt (2 + Real.sqrtTwoAddSeries 0 3) from rfl]
  exact sqrt_add_bounds t3_bounds.1 t3_bounds.2 (by norm_num) (by norm_num) (by norm_num)
    (by norm_num)

theorem t5_bounds : (1.99759091241034477 : ℝ) < Real.sqrtTwoAddSeries 0 5 ∧
    Real.sqrtTwoAddSeries 0 5 < 1.99759091241034480 := by
  rw [show Real.sqrtTwoAddSeries 0 5 = Real.sqrt (2 + Real.sqrtTwoAddSeries 0 4) from rfl]
  exact sqrt_add_bounds t4_bounds.1 t4_bounds.2 (by norm_num) (by norm_num) (by norm_num)
    (by norm_num)

theorem t6_bounds : (1.99939763739240843 : ℝ) < Real.sqrtTwoAddSeries 0 6 ∧
    Real.sqrtTwoAddSeries 0 6 < 1.99939763739240846 := by
  rw [show Real.sqrtTwoAddSeries 0 6 = Real.sqrt (2 + Real.sqrtTwoAddSeries 0 5) from rfl]
  exact sqrt_add_bounds t5_bounds.1 t5_bounds.2 (by norm_num) (by norm_num) (by norm_num)
    (by norm_num)

theorem sq2mt5_bounds : (0.0490824570458240 : ℝ) < Real.sqrt (2 - Real.sqrtTwoAddSeries 0 5) ∧
    Real.sqrt (2 - Real.sqrtTwoAddSeries 0 5) < 0.0490824570458250 :=
  sqrt_sub_bounds t5_bounds.1 t5_bounds.2 (by norm_num) (by norm_num) (by norm_num)
    (by norm_num)

theorem cos_base_bounds : ((c1lo : ℤ) : ℝ) ≤ 2 ^ 44 * Real.cos (Real.pi / 128) ∧
    2 ^ 44 * Real.cos (Real.pi / 128) ≤ ((c1hi : ℤ) : ℝ) := by
  have h := Real.cos_pi_over_two_pow 6
  rw [show (Real.pi / 128 : ℝ) = Real.pi / 2 ^ 7 by norm_num, h]
  unfold c1lo c1hi
  have h1 := t6_bounds.1
  have h2 := t6_bounds.2
  constructor <;> push_cast <;> linarith

theorem sin_base_bounds : ((s1lo : ℤ) : ℝ) ≤ 2 ^ 44 * Real.sin (Real.pi / 128) ∧
    2 ^ 44 * Real.sin (Real.pi / 128) ≤ ((s1hi : ℤ) : ℝ) := by
  have h := Real.sin_pi_over_two_pow_succ 5
  rw [show (Real.pi / 128 : ℝ) = Real.pi / 2 ^ 7 by norm_num,
    show (7 : ℕ) = 5 + 2 from rfl, h]
  unfold s1lo s1hi
  have h1 := sq2mt5_bounds.1
  have h2 := sq2mt5_bounds.2
  constructor <;> push_cast <;> linarith

end FFT

namespace FFT

theorem mul_mem {x y : ℝ} {xl xh yl yh : ℤ}
    (hx1 : (xl : ℝ) ≤ x) (hx2 : x ≤ (xh : ℝ)) (hy1 : (yl : ℝ) ≤ y) (hy2 : y ≤ (yh : ℝ)) :
    ((mulLo xl xh yl yh : ℤ) : ℝ) ≤ x * y ∧ x * y ≤ ((mulHi xl xh yl yh : ℤ) : ℝ) := by
  unfold mulLo mulHi
  push_cast
  constructor
  · rcases le_total 0 y with hy | hy
    · rcases le_total 0 (xl : ℝ) with hxl | hxl
      · have h1 : min (min ((xl:ℝ) * yl) ((xl:ℝ) * yh)) (min ((xh:ℝ) * yl) ((xh:ℝ) * yh)) ≤
            (xl:ℝ) * yl := le_trans (min_le_left _ _) (min_le_left _ _)
        nlinarith
      · have h1 : min (min ((xl:ℝ) * yl) ((xl:ℝ) * yh)) (min ((xh:ℝ) * yl) ((xh:ℝ) * yh)) ≤
            (xl:ℝ) * yh := le_trans (min_le_left _ _) (min_le_right _ _)
        nlinarith
    · rcases le_total 0 (xh : ℝ) with hxh | hxh
      · have h1 : min (min ((xl:ℝ) * yl) ((xl:ℝ) * yh)) (min ((xh:ℝ) * yl) ((xh:ℝ) * yh)) ≤
            (xh:ℝ) * yl := le_trans (min_le_right _ _) (min_le_left _ _)
        nlinarith
      · have h1 : min (min ((xl:ℝ) * yl) ((xl:ℝ) * yh)) (min ((xh:ℝ) * yl) ((xh:ℝ) * yh)) ≤
            (xh:ℝ) * yh := le_trans (min_le_right _ _) (min_le_right _ _)
        nlinarith
  · rcases le_total 0 y with hy | hy
    · rcases le_total 0 (xh : ℝ) with hxh | hxh
      · have h1 : (xh:ℝ) * yh ≤
            max (max ((xl:ℝ) * yl) ((xl:ℝ) * yh)) (max ((xh:ℝ) * yl) ((xh:ℝ) * yh)) :=
          le_trans (le_max_right _ _) (le_max_right _ _)
        nlinarith
      · have h1 : (xh:ℝ) * yl ≤
            max (max ((xl:ℝ) * yl) ((xl:ℝ) * yh)) (max ((xh:ℝ) * yl) ((xh:ℝ) * yh)) :=
          le_trans (le_max_left _ _) (le_max_right _ _)
        nlinarith
    · rcases le_total 0 (xl : ℝ) with hxl | hxl
      · have h1 : (xl:ℝ) * yh ≤
            max (max ((xl:ℝ) * yl) ((xl:ℝ) * yh)) (max ((xh:ℝ) * yl) ((xh:ℝ) * yh)) :=
          le_trans (le_max_right _ _) (le_max_left _ _)
        nlinarith
      · have h1 : (xl:ℝ) * yl ≤
            max (max ((xl:ℝ) * yl) ((xl:ℝ) * yh)) (max ((xh:ℝ) * yl) ((xh:ℝ) * yh)) :=
          le_trans (le_max_left _ _) (le_max_left _ _)
        nlinarith

theorem fdiv_cast_le {a : ℤ} {y : ℝ} (h : (a : ℝ) ≤ 2 ^ 44 * y) :
    ((Int.fdiv a (2 ^ 44) : ℤ) : ℝ) ≤ y := by
  rw [Int.fdiv_eq_ediv _ (by norm_num)]
  have h1 : (a / 2 ^ 44 : ℤ) * 2 ^ 44 ≤ a := Int.ediv_mul_le a (by norm_num)
  have h2 : ((a / 2 ^ 44 : ℤ) : ℝ) * 2 ^ 44 ≤ (a : ℝ) := by exact_mod_cast h1
  linarith

theorem le_neg_fdiv_cast {a : ℤ} {y : ℝ} (h : 2 ^ 44 * y ≤ (a : ℝ)) :
    y ≤ ((-Int.fdiv (-a) (2 ^ 44) : ℤ) : ℝ) := by
  rw [Int.fdiv_eq_ediv _ (by norm_num)]
  have h1 : ((-a) / 2 ^ 44 : ℤ) * 2 ^ 44 ≤ -a := Int.ediv_mul_le (-a) (by norm_num)
  have h2 : (((-a) / 2 ^ 44 : ℤ) : ℝ) * 2 ^ 44 ≤ ((-a : ℤ) : ℝ) := by exact_mod_cast h1
  push_cast at h2 ⊢
  linarith

set_option maxHeartbeats 2000000 in
theorem trigIv_ok : ∀ k : ℕ,
    (((trigIv k).cl : ℤ) : ℝ) ≤ 2 ^ 44 * Real.cos (k * (Real.pi / 128)) ∧
    2 ^ 44 * Real.cos (k * (Real.pi / 128)) ≤ (((trigIv k).ch : ℤ) : ℝ) ∧
    (((trigIv k).sl : ℤ) : ℝ) ≤ 2 ^ 44 * Real.sin (k * (Real.pi / 128)) ∧
    2 ^ 44 * Real.sin (k * (Real.pi / 128)) ≤ (((trigIv k).sh : ℤ) : ℝ) := by
  intro k
  induction k with
  | zero =>
    have hz : ((0 : ℕ) : ℝ) * (Real.pi / 128) = 0 := by push_cast; ring
    rw [hz, Real.cos_zero, Real.sin_zero]
    norm_num [trigIv]
  | succ k ih =>
    obtain ⟨h1, h2, h3, h4⟩ := ih
    have hbc := cos_base_bounds
    have hbs := sin_base_bounds
    have hmc := mul_mem h1 h2 hbc.1 hbc.2
    have hms := mul_mem h3 h4 hbs.1 hbs.2
    have hmsc := mul_mem h3 h4 hbc.1 hbc.2
    have hmcs := mul_mem h1 h2 hbs.1 hbs.2
    have hangle : ((k + 1 : ℕ) : ℝ) * (Real.pi / 128) =
        (k : ℝ) * (Real.pi / 128) + Real.pi / 128 := by push_cast; ring
    have hca : Real.cos ((k + 1 : ℕ) * (Real.pi / 128)) =
        Real.cos (k * (Real.pi / 128)) * Real.cos (Real.pi / 128) -
        Real.sin (k * (Real.pi / 128)) * Real.sin (Real.pi / 128) := by
      rw [hangle, Real.cos_add]
    have hsa : Real.sin ((k + 1 : ℕ) * (Real.pi / 128)) =
        Real.sin (k * (Real.pi / 128)) * Real.cos (Real.pi / 128) +
        Real.cos (k * (Real.pi / 128)) * Real.sin (Real.pi / 128) := by
      rw [hangle, Real.sin_add]
    refine ⟨?_, ?_, ?_, ?_⟩
    · show ((trigStep (trigIv k)).cl : ℝ) ≤ _
      simp only [trigStep]
      apply fdiv_cast_le
      rw [hca]
      push_cast
      nlinarith [hmc.1, hms.2]
    · show _ ≤ ((trigStep (trigIv k)).ch : ℝ)
      simp only [trigStep]
      apply le_neg_fdiv_cast
      rw [hca]
      push_cast
      nlinarith [hmc.2, hms.1]
    · show ((trigStep (trigIv k)).sl : ℝ) ≤ _
      simp only [trigStep]
      apply fdiv_cast_le
      rw [hsa]
      push_cast
      nlinarith [hmsc.1, hmcs.1]
    · show _ ≤ ((trigStep (trigIv k)).sh : ℝ)
      simp only [trigStep]
      apply le_neg_fdiv_cast
      rw [hsa]
      push_cast
      nlinarith [hmsc.2, hmcs.2]

end FFT

namespace FFT

theorem floor_from_iv {n lo hi : ℤ} {x : ℝ}
    (h1 : (lo : ℝ) ≤ 2 ^ 44 * x) (h2 : 2 ^ 44 * x ≤ (hi : ℝ))
    (c1 : n * 2 ^ 44 ≤ 65536 * lo) (c2 : 65536 * hi < (n + 1) * 2 ^ 44) :
    ⌊(65536 : ℝ) * x⌋ = n := by
  rw [Int.floor_eq_iff]
  have hc1 : ((n * 2 ^ 44 : ℤ) : ℝ) ≤ ((65536 * lo : ℤ) : ℝ) := by exact_mod_cast c1
  have hc2 : ((65536 * hi : ℤ) : ℝ) < (((n + 1) * 2 ^ 44 : ℤ) : ℝ) := by exact_mod_cast c2
  push_cast at hc1 hc2
  constructor <;> nlinarith

theorem cos_at_64 : Real.cos ((64 : ℕ) * (Real.pi / 128)) = 0 := by
  rw [show ((64 : ℕ) : ℝ) * (Real.pi / 128) = Real.pi / 2 by push_cast; ring]
  exact Real.cos_pi_div_two

theorem sin_at_64 : Real.sin ((64 : ℕ) * (Real.pi / 128)) = 1 := by
  rw [show ((64 : ℕ) : ℝ) * (Real.pi / 128) = Real.pi / 2 by push_cast; ring]
  exact Real.sin_pi_div_two

/-- C4 (amended): every table entry is the floor (truncation toward minus
infinity, the `AP_TRN` rule) of the scaled analytic twiddle value: for all
`k < 128`, `TW_REAL[k] = floor(2^16 * cos(-2*pi*k/256))` and
`TW_IMAG[k] = floor(2^16 * sin(-2*pi*k/256))`. -/
theorem C4_table_is_floor_of_analytic : ∀ k : ℕ, k < 128 →
    TW_REAL k = ⌊(65536 : ℝ) * Real.cos (-(2 * Real.pi * k / 256))⌋ ∧
    TW_IMAG k = ⌊(65536 : ℝ) * Real.sin (-(2 * Real.pi * k / 256))⌋ := by
  intro k hk
  have hang : (2 * Real.pi * k / 256 : ℝ) = (k : ℝ) * (Real.pi / 128) := by ring
  have hc : Real.cos (-(2 * Real.pi * k / 256)) = Real.cos ((k : ℕ) * (Real.pi / 128)) := by
    rw [Real.cos_neg, hang]
  have hs : Real.sin (-(2 * Real.pi * k / 256)) = -Real.sin ((k : ℕ) * (Real.pi / 128)) := by
    rw [Real.sin_neg, hang]
  rw [hc, hs]
  by_cases h64 : k = 64
  · subst h64
    rw [cos_at_64, sin_at_64]
    norm_num
    exact ⟨by decide, by decide⟩
  · obtain ⟨⟨r1, r2⟩, i1, i2⟩ := tw_checks k hk h64
    obtain ⟨h1, h2, h3, h4⟩ := trigIv_ok k
    constructor
    · exact (floor_from_iv h1 h2 r1 r2).symm
    · have h3n : ((-(trigIv k).sh : ℤ) : ℝ) ≤ 2 ^ 44 * (-Real.sin (k * (Real.pi / 128))) := by
        push_cast
        linarith
      have h4n : 2 ^ 44 * (-Real.sin (k * (Real.pi / 128))) ≤ ((-(trigIv k).sl : ℤ) : ℝ) := by
        push_cast
        linarith
      exact (floor_from_iv h3n h4n i1 i2).symm

theorem C4_witness : (2 : ℕ) < 128 ∧
    (TW_REAL 2 = ⌊(65536 : ℝ) * Real.cos (-(2 * Real.pi * 2 / 256))⌋ ∧
     TW_IMAG 2 = ⌊(65536 : ℝ) * Real.sin (-(2 * Real.pi * 2 / 256))⌋) := by
  refine ⟨by norm_num, ?_⟩
  have h := C4_table_is_floor_of_analytic 2 (by norm_num)
  simpa using h

/-- C4 counterexample: the table entry `TW_IMAG[1]` has raw value `-1609`,
but truncating `2^16 * sin(-2*pi/256)` toward zero (as the claim states)
gives `-1608`: the embedded table truncates toward minus infinity instead. -/
theorem C4_counterexample :
    TW_IMAG 1 = -1609 ∧
    truncTowardZero ((65536 : ℝ) * Real.sin (-(2 * Real.pi * 1 / 256))) = -1608 := by
  have hbs := sin_base_bounds
  have hspos : 0 < Real.sin (Real.pi / 128) := by
    have := hbs.1
    unfold s1lo at this
    push_cast at this
    nlinarith
  have hang : Real.sin (-(2 * Real.pi * 1 / 256)) = -Real.sin (Real.pi / 128) := by
    rw [show (2 * Real.pi * 1 / 256 : ℝ) = Real.pi / 128 by ring, Real.sin_neg]
  constructor
  · decide
  · rw [hang]
    unfold truncTowardZero
    rw [if_neg (by nlinarith)]
    have hfl : ⌊(65536 : ℝ) * Real.sin (Real.pi / 128)⌋ = 1608 :=
      @floor_from_iv 1608 s1lo s1hi _ hbs.1 hbs.2 (by decide) (by decide)
    rw [show -((65536 : ℝ) * -Real.sin (Real.pi / 128)) =
        (65536 : ℝ) * Real.sin (Real.pi / 128) by ring, hfl]

end FFT
